import Mathlib

/-!
Formalisation of the core data model and operations of the `scene_generation`
repository: the planar and spatial pose algebra, the probabilistic scene
grammar node types (`OrNode`, `AndNode`, `CovaryingSetNode`,
`IndependentSetNode`), their constructors and production-rule scoring, the
`ProjectToFeasibilityDist` short-circuit logic, and parse-tree total
log-probability accumulation.  Python floats are modelled as real numbers
(exact weights as rationals where the source only does field arithmetic),
mutable tensors as explicit values, and raised exceptions as `Except` values.
Production rules are identified by reference in the source; rule identity is
modelled by a discrete identifier type `Rule`.
-/

open Real

/-- Production rules are compared by object identity (`in` / `.index` on the
node's own rule list); we model a rule by an identifier. -/
abbrev Rule := ℕ

/-- Python exception kinds raised by the modelled code paths. -/
inductive PyError where
  | valueError
  | assertionError
  | notImplementedError
  deriving DecidableEq, Repr

/-! ## Planar pose algebra (`probabilistic_scene_grammar_nodes.py`) -/

/-- A planar pose `(x, y, theta)`. -/
@[ext]
structure PlanarPose where
  x : ℝ
  y : ℝ
  θ : ℝ

/-- `chain_pose_transforms(p_w1, p_12)`: pose 2 in world frame.
`out[0] = p_w1[0] + p_12[0]*cos(r) - p_12[1]*sin(r)`,
`out[1] = p_w1[1] + p_12[0]*sin(r) + p_12[1]*cos(r)`,
`out[2] = p_w1[2] + p_12[2]` with `r = p_w1[2]`. -/
noncomputable def chain_pose_transforms (p_w1 p_12 : PlanarPose) : PlanarPose where
  x := p_w1.x + p_12.x * Real.cos p_w1.θ - p_12.y * Real.sin p_w1.θ
  y := p_w1.y + p_12.x * Real.sin p_w1.θ + p_12.y * Real.cos p_w1.θ
  θ := p_w1.θ + p_12.θ

/-- `invert_pose(pose)`:
`out[0] = -(pose[0]*cos(-r) - pose[1]*sin(-r))`,
`out[1] = -(pose[0]*sin(-r) + pose[1]*cos(-r))`,
`out[2] = -r` with `r = pose[2]`. -/
noncomputable def invert_pose (pose : PlanarPose) : PlanarPose where
  x := -(pose.x * Real.cos (-pose.θ) - pose.y * Real.sin (-pose.θ))
  y := -(pose.x * Real.sin (-pose.θ) + pose.y * Real.cos (-pose.θ))
  θ := -pose.θ

namespace TablePlaceSettingRule

/-- `Table.PlaceSettingProductionRule._recover_rel_offset_from_abs_offset`:
`pose_in_world = chain_pose_transforms(parent.pose, self.pose)`;
returns `chain_pose_transforms(invert_pose(pose_in_world), abs_offset)`. -/
noncomputable def recover_rel_offset_from_abs_offset
    (parentPose rulePose absOffset : PlanarPose) : PlanarPose :=
  chain_pose_transforms (invert_pose (chain_pose_transforms parentPose rulePose)) absOffset

/-- `Table.PlaceSettingProductionRule.__call__`: when `obs_products` is given,
`obs_rel_offset` is computed from the observed pose, but `pyro.sample` is then
invoked *without* the `obs=` keyword, so the returned relative offset is the
fresh draw from the offset distribution (modelled by the explicit `draw`
argument).  The returned `PlaceSetting`'s pose is
`chain_pose_transforms(pose_in_world, rel_offset)`. -/
noncomputable def call (parentPose rulePose : PlanarPose)
    (obs_products : Option PlanarPose) (draw : PlanarPose) : PlanarPose :=
  let _obs_rel_offset : Option PlanarPose :=
    obs_products.map (recover_rel_offset_from_abs_offset parentPose rulePose)
  let rel_offset := draw
  let pose_in_world := chain_pose_transforms parentPose rulePose
  chain_pose_transforms pose_in_world rel_offset

end TablePlaceSettingRule

/-! ## Grammar node constructors and scoring -/

namespace AndNode

/-- `AndNode.__init__`: raises `ValueError` when the production-rule list is
empty, otherwise stores the rules. -/
def init (production_rules : List Rule) : Except PyError (List Rule) :=
  if production_rules.length = 0 then .error .valueError
  else .ok production_rules

/-- `AndNode.score_production_rules`: the source returns `-inf` when
`production_rules != self.production_rules`, and also returns `-inf` in the
`else` branch. -/
def score_production_rules (selfRules production_rules : List Rule) : EReal :=
  if production_rules ≠ selfRules then ⊥ else ⊥

end AndNode

/-- First index of `r` in `l`; Python `list.index` raises `ValueError` when
the element is absent. -/
def pyListIndex : List Rule → Rule → Except PyError ℕ
  | [], _ => .error .valueError
  | x :: xs, r => if x = r then .ok 0 else (pyListIndex xs r).map (· + 1)

/-- `torch.distributions.Categorical(w).log_prob(i)`: log of the normalised
weight at index `i`. -/
noncomputable def categoricalLogProb (weights : List ℝ) (i : ℕ) : EReal :=
  ((Real.log ((weights.getD i 0) / weights.sum) : ℝ) : EReal)

namespace OrNode

/-- `OrNode.__init__`: `ValueError` when weights and rules differ in length or
when there are zero production rules. -/
def init (production_rules : List Rule) (production_weights : List ℝ) :
    Except PyError (List Rule) :=
  if production_weights.length ≠ production_rules.length then .error .valueError
  else if production_weights.length = 0 then .error .valueError
  else .ok production_rules

/-- `OrNode._recover_active_rule`: prints a warning when
`production_rules[0]` is not among the node's rules, then unconditionally
evaluates `self.production_rules.index(production_rules[0])`, which raises
`ValueError` for a missing element. -/
def recover_active_rule (selfRules : List Rule) (first : Rule) :
    Except PyError ℕ :=
  pyListIndex selfRules first

/-- `OrNode.score_production_rules`: `-inf` when the rule list does not have
exactly one element; otherwise the categorical log-probability of the
recovered index (and any exception from `_recover_active_rule` propagates). -/
noncomputable def score_production_rules (selfRules : List Rule)
    (weights : List ℝ) (production_rules : List Rule) : Except PyError EReal :=
  if production_rules.length ≠ 1 then .ok ⊥
  else
    match recover_active_rule selfRules (production_rules.headD 0) with
    | .error e => .error e
    | .ok i => .ok (categoricalLogProb weights i)

end OrNode

namespace CovaryingSetNode

/-- Index of a hint combination: `sum(2**index for index in hint)`. -/
def combinationIndex (hint : List ℕ) : ℕ := (hint.map (2 ^ ·)).sum

/-- The initial weight vector built by `CovaryingSetNode.__init__`:
`num_combinations = 2**len(production_rules) + 1` ones times
`remaining_weight`, then each hint's combination index overwritten with the
hint's weight (dict iteration in insertion order). -/
def buildInitWeights (n : ℕ) (hints : List (List ℕ × ℚ)) (remaining_weight : ℚ) :
    List ℚ :=
  hints.foldl (fun w h => w.set (combinationIndex h.1) h.2)
    (List.replicate (2 ^ n + 1) remaining_weight)

/-- `CovaryingSetNode.__init__`: asserts `remaining_weight >= 0`, each hint
weight `>= 0` and each hint index `< len(production_rules)`; then builds the
initial weights and normalises them by their sum.  The resulting list is the
probability vector of the node's categorical distribution. -/
def init (production_rules : List Rule) (production_weights_hints : List (List ℕ × ℚ))
    (remaining_weight : ℚ) : Except PyError (List ℚ) :=
  if remaining_weight < 0 then .error .assertionError
  else if production_weights_hints.any
      (fun h => h.2 < 0 ∨ h.1.any (fun i => ¬ i < production_rules.length)) then
    .error .assertionError
  else
    let w := buildInitWeights production_rules.length production_weights_hints
      remaining_weight
    .ok (w.map (· / w.sum))

end CovaryingSetNode

/-! ## Spatial pose algebra (`probabilistic_scene_grammar_nodes_dish_bin.py`) -/

/-- A spatial pose `(x, y, z, roll, pitch, yaw)` (xyz + rpy). -/
@[ext]
structure SpatialPose where
  x : ℝ
  y : ℝ
  z : ℝ
  roll : ℝ
  pitch : ℝ
  yaw : ℝ

/-- `torch.atan2(y, x)`: the argument of the complex number `x + y i`
(`atan2(0, 0) = 0`, matching the torch convention). -/
noncomputable def atan2 (y x : ℝ) : ℝ := Complex.arg (Complex.mk x y)

/-- The `rot_x` factor of `rotation_tensor`. -/
noncomputable def rot_x (θ : ℝ) : Matrix (Fin 3) (Fin 3) ℝ :=
  Matrix.of ![![1, 0, 0],
              ![0, Real.cos θ, -Real.sin θ],
              ![0, Real.sin θ, Real.cos θ]]

/-- The `rot_y` factor of `rotation_tensor`. -/
noncomputable def rot_y (φ : ℝ) : Matrix (Fin 3) (Fin 3) ℝ :=
  Matrix.of ![![Real.cos φ, 0, Real.sin φ],
              ![0, 1, 0],
              ![-Real.sin φ, 0, Real.cos φ]]

/-- The `rot_z` factor of `rotation_tensor`. -/
noncomputable def rot_z (ψ : ℝ) : Matrix (Fin 3) (Fin 3) ℝ :=
  Matrix.of ![![Real.cos ψ, -Real.sin ψ, 0],
              ![Real.sin ψ, Real.cos ψ, 0],
              ![0, 0, 1]]

/-- `rotation_tensor(theta, phi, psi) = rot_z @ (rot_y @ rot_x)`. -/
noncomputable def rotation_tensor (θ φ ψ : ℝ) : Matrix (Fin 3) (Fin 3) ℝ :=
  rot_z ψ * (rot_y φ * rot_x θ)

/-- `pose_to_tf_matrix(pose)`: homogeneous 4×4 transform with rotation block
`rotation_tensor(pose[3], pose[4], pose[5])` and translation `pose[:3]`. -/
noncomputable def pose_to_tf_matrix (pose : SpatialPose) : Matrix (Fin 4) (Fin 4) ℝ :=
  let R := rotation_tensor pose.roll pose.pitch pose.yaw
  Matrix.of ![![R 0 0, R 0 1, R 0 2, pose.x],
              ![R 1 0, R 1 1, R 1 2, pose.y],
              ![R 2 0, R 2 1, R 2 2, pose.z],
              ![0, 0, 0, 1]]

/-- `tf_matrix_to_pose(tf)`: translation from `tf[:3,3]`; Euler angles
recovered with `sy = sqrt(R[0,0]^2 + R[1,0]^2)`, using the non-singular
branch when `sy >= 1E-6`, and the singular (gimbal-lock) branch with yaw
fixed to `0` otherwise. -/
noncomputable def tf_matrix_to_pose (tf : Matrix (Fin 4) (Fin 4) ℝ) : SpatialPose :=
  let sy := Real.sqrt (tf 0 0 * tf 0 0 + tf 1 0 * tf 1 0)
  if sy ≥ 1e-6 then
    { x := tf 0 3, y := tf 1 3, z := tf 2 3
      roll := atan2 (tf 2 1) (tf 2 2)
      pitch := atan2 (-(tf 2 0)) sy
      yaw := atan2 (tf 1 0) (tf 0 0) }
  else
    { x := tf 0 3, y := tf 1 3, z := tf 2 3
      roll := atan2 (-(tf 1 2)) (tf 1 1)
      pitch := atan2 (-(tf 2 0)) sy
      yaw := 0 }

/-- `invert_tf(tf)`: rotation block transposed, translation replaced by
`-R^T @ t`, last row `(0,0,0,1)` from the `eye` initialisation. -/
noncomputable def invert_tf (tf : Matrix (Fin 4) (Fin 4) ℝ) : Matrix (Fin 4) (Fin 4) ℝ :=
  Matrix.of
    ![![tf 0 0, tf 1 0, tf 2 0,
        -(tf 0 0 * tf 0 3 + tf 1 0 * tf 1 3 + tf 2 0 * tf 2 3)],
      ![tf 0 1, tf 1 1, tf 2 1,
        -(tf 0 1 * tf 0 3 + tf 1 1 * tf 1 3 + tf 2 1 * tf 2 3)],
      ![tf 0 2, tf 1 2, tf 2 2,
        -(tf 0 2 * tf 0 3 + tf 1 2 * tf 1 3 + tf 2 2 * tf 2 3)],
      ![0, 0, 0, 1]]

namespace DishBinObjectRule

/-- `DishBin.ObjectProductionRule._recover_rel_offset_from_abs_offset`:
computes `my_pose_in_world_tf = parent_pose_tf @ my_pose_tf` but then forms
`rel_tf = invert_tf(my_pose_tf) @ pose_to_tf_matrix(abs_offset)` using only
the rule's own pose, and converts back to a pose. -/
noncomputable def recover_rel_offset_from_abs_offset
    (rulePose parentPose absOffset : SpatialPose) : SpatialPose :=
  let my_pose_tf := pose_to_tf_matrix rulePose
  let parent_pose_tf := pose_to_tf_matrix parentPose
  let _my_pose_in_world_tf := parent_pose_tf * my_pose_tf
  let rel_tf := invert_tf my_pose_tf * pose_to_tf_matrix absOffset
  tf_matrix_to_pose rel_tf

/-- The absolute child pose produced by the unobserved branch of
`DishBin.ObjectProductionRule.sample_products`:
`tf_matrix_to_pose((parent_pose_tf @ my_pose_tf) @ pose_to_tf_matrix(rel_offset))`. -/
noncomputable def sample_products_pose
    (rulePose parentPose relOffset : SpatialPose) : SpatialPose :=
  let my_pose_tf := pose_to_tf_matrix rulePose
  let parent_pose_tf := pose_to_tf_matrix parentPose
  let my_pose_in_world_tf := parent_pose_tf * my_pose_tf
  let offset_tf := pose_to_tf_matrix relOffset
  tf_matrix_to_pose (my_pose_in_world_tf * offset_tf)

end DishBinObjectRule

/-- The zero spatial pose (the dish bin's pose and the rules' own pose). -/
def spZero : SpatialPose := ⟨0, 0, 0, 0, 0, 0⟩

/-- A parent pose that is a pure unit translation along x. -/
def spUnitX : SpatialPose := ⟨1, 0, 0, 0, 0, 0⟩

/-- A pose at the gimbal-lock singularity (pitch `π/2`) with nonzero yaw. -/
noncomputable def spGimbal : SpatialPose := ⟨0, 0, 0, 0, Real.pi / 2, 1⟩

/-! ## Parse trees and total log-probability -/

/-- Modelled from the spec: the `ParseTree` class used by
`probabilistic_scene_grammar_fitting.py` and the `__main__` of
`probabilistic_scene_grammar_nodes_dish_bin.py` is not present in the
repository sources (only its callers are).  Per §3/§4.4 of the spec, a parse
tree is the realized recursive expansion of a root node: non-terminal nodes
carry the local production log-probability of the step that expanded them and
their child subtrees; terminal nodes carry their intrinsic prior
log-probability (if any). -/
inductive ParseTree where
  | terminal (prior : ℝ)
  | internal (local_log_prob : ℝ) (children : List ParseTree)

/-- Auxiliary size computation: list `sizeOf` is additive over append up to
the terminating nil constructor. -/
lemma sizeOf_parseTree_list_append (l₁ l₂ : List ParseTree) :
    sizeOf (l₁ ++ l₂) + 1 = sizeOf l₁ + sizeOf l₂ := by
  induction l₁ with
  | nil => simp only [List.nil_append, List.nil.sizeOf_spec]; omega
  | cons a t ih => simp only [List.cons_append, List.cons.sizeOf_spec]; omega

/-- Modelled from the spec: the work-list accumulation behind
`ParseTree.get_total_log_prob` (absent from the sources).  Per §4.4, the walk
pops a node, accumulates its local production log-probability (or the
terminal's prior) and enqueues its children, until the work-list is empty. -/
noncomputable def getTotalLogProbAux : List ParseTree → ℝ → ℝ
  | [], acc => acc
  | .terminal p :: rest, acc => getTotalLogProbAux rest (acc + p)
  | .internal lp cs :: rest, acc => getTotalLogProbAux (rest ++ cs) (acc + lp)
termination_by l _ => sizeOf l
decreasing_by
  all_goals simp_wf
  all_goals first
    | omega
    | (have h := sizeOf_parseTree_list_append rest cs; omega)

/-- Modelled from the spec: `get_total_log_prob` of a parse tree, the
work-list accumulation started at the root with a zero accumulator. -/
noncomputable def ParseTree.get_total_log_prob (root : ParseTree) : ℝ :=
  getTotalLogProbAux [root] 0

/-- The per-site log-probabilities of the generating trace: one entry per
node of the tree, gathered structurally (each node contributing exactly
once). -/
noncomputable def ParseTree.siteLogProbs : ParseTree → List ℝ
  | .terminal p => [p]
  | .internal lp cs =>
      lp :: (cs.attach.map (fun c => ParseTree.siteLogProbs c.1)).flatten
decreasing_by
  have := List.sizeOf_lt_of_mem c.2
  simp_wf
  omega

/-! ## `ProjectToFeasibilityDist` (`planar_multi_object_multi_class_2_with_context.py`) -/

/-- A parameter vector of one candidate object (one batch row). -/
abbrev ProjParams (m : ℕ) := Fin m → ℝ

open scoped Classical in
/-- The body of the per-batch-element loop of
`ProjectToFeasibilityDist.__init__`: `new_params` starts as the unprojected
input row and `new_params_derivs` as the identity; the expensive projection
(abstracted here as the external `oracle`, §6's physics feasibility oracle)
runs only when `class_i == new_class[k]` and (`object_i == 0` or all previous
`keep_going` entries of the row are nonzero). -/
noncomputable def projectElement {m : ℕ}
    (oracle : ProjParams m → ProjParams m × Matrix (Fin m) (Fin m) ℝ)
    (class_i new_class_k : ℤ) (object_i : ℕ) (keep_going_k : List ℝ)
    (pre_k : ProjParams m) : ProjParams m × Matrix (Fin m) (Fin m) ℝ :=
  if class_i = new_class_k ∧ (object_i = 0 ∨ ∀ x ∈ keep_going_k, x ≠ 0) then
    oracle pre_k
  else (pre_k, 1)

/-- The whole loop `for k in range(batch_shape[0])`: each batch row carries
its `new_class[k]`, its previous `keep_going[k, :]` row, and its
pre-projection parameter row; the loop stacks the per-row results. -/
noncomputable def projectAllElements {m : ℕ}
    (oracle : ProjParams m → ProjParams m × Matrix (Fin m) (Fin m) ℝ)
    (class_i : ℤ) (object_i : ℕ)
    (batch : List (ℤ × List ℝ × ProjParams m)) :
    List (ProjParams m × Matrix (Fin m) (Fin m) ℝ) :=
  batch.map (fun b => projectElement oracle class_i b.1 object_i b.2.1 b.2.2)

/-- The shape handling at the top of `ProjectToFeasibilityDist.__init__`:
`batch_shape = shape[:-1]`, `event_shape = shape[-1:]`, and
`NotImplementedError` is raised when `len(batch_shape) > 1`. -/
def ProjectToFeasibilityDistInitGuard (shape : List ℕ) :
    Except PyError (List ℕ × List ℕ) :=
  let batch_shape := shape.dropLast
  let event_shape := shape.drop (shape.length - 1)
  if batch_shape.length > 1 then .error .notImplementedError
  else .ok (batch_shape, event_shape)

/-! ## Concrete instances used by witnesses and counterexamples -/

/-- The zero planar pose. -/
def ppZero : PlanarPose := ⟨0, 0, 0⟩

/-- A trivial stand-in for the external projection oracle. -/
noncomputable def oracle0 : ProjParams 1 → ProjParams 1 × Matrix (Fin 1) (Fin 1) ℝ :=
  fun p => (p, 0)

/-- A one-row batch whose `new_class` entry is `1`. -/
noncomputable def batch0 : List (ℤ × List ℝ × ProjParams 1) :=
  [(1, [], fun _ => 5)]

/-! ## Claim theorems -/

/-- C1: `AndNode.score_production_rules` never returns the claimed
log-probability `log 1 = 0` on the node's own full rule list — both branches
of the source return `-inf`, so the score of the exact rule list is `-inf`
(`⊥`), not the finite value `0` required by the spec. -/
theorem andNode_score_full_rule_list_is_neg_inf :
    ∀ rules : List Rule,
      AndNode.score_production_rules rules rules = ⊥ ∧
      AndNode.score_production_rules rules rules ≠ 0 := by
  intro rules
  have h : AndNode.score_production_rules rules rules = ⊥ := by
    simp [AndNode.score_production_rules]
  refine ⟨h, ?_⟩
  rw [h]
  intro hbot
  exact absurd hbot.symm (by simp)

/-- C2: `CovaryingSetNode.__init__` builds `2^n + 1` categorical weights, not
the `2^n` combinations claimed: with a single production rule, empty hints
and `remaining_weight = 1` the normalised weight vector has three entries,
an extra (index `2^1 = 2`) category beyond the `2^1` subset combinations. -/
theorem covaryingSetNode_builds_extra_combination :
    CovaryingSetNode.init [0] [] 1 = .ok [1/3, 1/3, 1/3] ∧
      ([1/3, 1/3, 1/3] : List ℚ).length = 2 ^ 1 + 1 := by
  constructor
  · norm_num [CovaryingSetNode.init, CovaryingSetNode.buildInitWeights,
      CovaryingSetNode.combinationIndex, List.replicate]
  · decide

/-- C6: scoring an `OrNode` against a production-rule list whose (single)
rule is not among the node's own rules raises `ValueError` from
`list.index` instead of returning `-inf`. -/
theorem orNode_score_foreign_rule_raises_value_error :
    OrNode.score_production_rules [0] [1] [1] = .error .valueError := by
  simp [OrNode.score_production_rules, OrNode.recover_active_rule, pyListIndex,
    Except.map]

/-- C7 counterexample: constructing a `CovaryingSetNode` with an empty
production-rule list (no hints, `remaining_weight = 1`) succeeds — there is
no construction-time emptiness check — contradicting the claim that it
raises for every choice of the remaining constructor arguments. -/
theorem covaryingSetNode_empty_rules_constructs :
    CovaryingSetNode.init [] [] 1 = .ok [1/2, 1/2] := by
  norm_num [CovaryingSetNode.init, CovaryingSetNode.buildInitWeights,
    CovaryingSetNode.combinationIndex, List.replicate]

/-- C7 amended: an empty production-rule list is a construction-time
`ValueError` for `OrNode` (for every weight vector) and for `AndNode`, but
`CovaryingSetNode` performs no such check and constructs successfully on an
empty rule list (e.g. with no hints and `remaining_weight = 1`, producing the
`2^0 + 1 = 2`-entry weight vector `[1/2, 1/2]`). -/
theorem empty_rule_list_construction_behaviour :
    (∀ w : List ℝ, OrNode.init [] w = .error .valueError) ∧
    AndNode.init [] = .error .valueError ∧
    CovaryingSetNode.init [] [] 1 = .ok [1/2, 1/2] := by
  refine ⟨?_, by simp [AndNode.init],
    by norm_num [CovaryingSetNode.init, CovaryingSetNode.buildInitWeights,
      CovaryingSetNode.combinationIndex, List.replicate]⟩
  intro w
  by_cases h : w.length = 0
  · simp [OrNode.init, h]
  · simp [OrNode.init, h]

/-- C10: a `pre_projection_params` tensor whose batch shape (all dimensions
but the last) has more than one dimension makes
`ProjectToFeasibilityDist.__init__` raise `NotImplementedError`. -/
theorem projectToFeasibilityDist_rejects_multidim_batch (shape : List ℕ)
    (h : shape.dropLast.length > 1) :
    ProjectToFeasibilityDistInitGuard shape = .error .notImplementedError := by
  simp only [ProjectToFeasibilityDistInitGuard]
  rw [if_pos h]

/-- Witness for C10 at the concrete shape `[2, 3, 4]`. -/
theorem projectToFeasibilityDist_rejects_multidim_batch_witness :
    ([2, 3, 4] : List ℕ).dropLast.length > 1 ∧
      ProjectToFeasibilityDistInitGuard [2, 3, 4] = .error .notImplementedError :=
  ⟨by decide, projectToFeasibilityDist_rejects_multidim_batch [2, 3, 4] (by decide)⟩

/-- C8: for a batch element whose declared class does not match `class_i`,
or with `object_i > 0` and some earlier `keep_going` entry zero, the
projection is skipped: the stored parameter row is the unprojected input and
the stored sensitivity matrix is the identity. -/
theorem projection_short_circuit {m : ℕ}
    (oracle : ProjParams m → ProjParams m × Matrix (Fin m) (Fin m) ℝ)
    (class_i : ℤ) (object_i : ℕ) (batch : List (ℤ × List ℝ × ProjParams m))
    (k : ℕ) (hk : k < batch.length)
    (hk2 : k < (projectAllElements oracle class_i object_i batch).length)
    (hskip : class_i ≠ (batch.get ⟨k, hk⟩).1 ∨
      (0 < object_i ∧ ∃ x ∈ (batch.get ⟨k, hk⟩).2.1, x = 0)) :
    (projectAllElements oracle class_i object_i batch).get ⟨k, hk2⟩ =
      ((batch.get ⟨k, hk⟩).2.2, 1) := by
  have hmap : (projectAllElements oracle class_i object_i batch).get ⟨k, hk2⟩ =
      projectElement oracle class_i (batch.get ⟨k, hk⟩).1 object_i
        (batch.get ⟨k, hk⟩).2.1 (batch.get ⟨k, hk⟩).2.2 := by
    simp [projectAllElements]
  rw [hmap, projectElement, if_neg]
  rintro ⟨hc, hrest⟩
  rcases hskip with h | ⟨ho, x, hx, hx0⟩
  · exact h hc
  · rcases hrest with h0 | hall
    · omega
    · exact hall x hx hx0

/-- Witness for C8: one batch row with mismatched class (`class_i = 0`,
`new_class = 1`) is passed through unprojected with identity sensitivity. -/
theorem projection_short_circuit_witness :
    0 < batch0.length ∧
    (0 : ℤ) ≠ (batch0.get ⟨0, by simp [batch0]⟩).1 ∧
    (projectAllElements oracle0 0 0 batch0).get
        ⟨0, by simp [projectAllElements, batch0]⟩ =
      ((batch0.get ⟨0, by simp [batch0]⟩).2.2, 1) :=
  ⟨by simp [batch0],
   by simp [batch0],
   projection_short_circuit oracle0 0 0 batch0 0 (by simp [batch0])
     (by simp [projectAllElements, batch0]) (Or.inl (by simp [batch0]))⟩

/-- C4: `Table.PlaceSettingProductionRule.__call__` with an observed product
does not return the observed pose: the recovered offset is discarded
(`pyro.sample` is called without `obs=`), so with parent and rule poses at
the origin, an observed place setting at `(1, 0, 0)` and a fresh draw of
`(0, 0, 0)`, the returned pose is `(0, 0, 0) ≠ (1, 0, 0)`. -/
theorem table_rule_drops_observation :
    TablePlaceSettingRule.call ppZero ppZero (some ⟨1, 0, 0⟩) ppZero ≠ ⟨1, 0, 0⟩ := by
  intro h
  have hx := congrArg PlanarPose.x h
  simp [TablePlaceSettingRule.call, chain_pose_transforms, ppZero] at hx

/-! ## Parse-tree decomposition lemmas -/

/-- Unfolding the work-list accumulator over the map-sum of per-site
log-probabilities: the accumulator result is the accumulator plus the total
of all sites of all trees still on the work-list. -/
lemma getTotalLogProbAux_eq (l : List ParseTree) (acc : ℝ) :
    getTotalLogProbAux l acc =
      acc + (l.map (fun t => t.siteLogProbs.sum)).sum := by
  generalize hn : sizeOf l = n
  induction n using Nat.strong_induction_on generalizing l acc with
  | _ n ih =>
    subst hn
    match l with
    | [] => simp [getTotalLogProbAux]
    | .terminal p :: rest =>
      rw [getTotalLogProbAux]
      rw [ih (sizeOf rest) (by simp) rest (acc + p) rfl]
      simp [ParseTree.siteLogProbs]
      ring
    | .internal lp cs :: rest =>
      rw [getTotalLogProbAux]
      have hsz : sizeOf (rest ++ cs) < sizeOf (ParseTree.internal lp cs :: rest) := by
        have h := sizeOf_parseTree_list_append rest cs
        simp
        omega
      rw [ih (sizeOf (rest ++ cs)) hsz (rest ++ cs) (acc + lp) rfl]
      simp [ParseTree.siteLogProbs, List.map_append, List.sum_append, Function.comp]
      rw [show (List.sum ∘ ParseTree.siteLogProbs) =
        (fun t : ParseTree => t.siteLogProbs.sum) from rfl]
      ring

/-- C9: the total joint log-probability computed by the work-list walk of
`get_total_log_prob` equals the sum of the per-site log-probabilities of the
generating trace — every node's local production log-probability and every
terminal's prior counted exactly once. -/
theorem parse_tree_total_log_prob_decomposition (t : ParseTree) :
    t.get_total_log_prob = t.siteLogProbs.sum := by
  simp [ParseTree.get_total_log_prob, getTotalLogProbAux_eq]

/-! ## Rotation-matrix lemmas -/

/-- Closed-form entries of `rotation_tensor`. -/
lemma rotation_tensor_entries (θ φ ψ : ℝ) :
    rotation_tensor θ φ ψ = Matrix.of
      ![![Real.cos ψ * Real.cos φ,
          Real.cos ψ * Real.sin φ * Real.sin θ - Real.sin ψ * Real.cos θ,
          Real.cos ψ * Real.sin φ * Real.cos θ + Real.sin ψ * Real.sin θ],
        ![Real.sin ψ * Real.cos φ,
          Real.sin ψ * Real.sin φ * Real.sin θ + Real.cos ψ * Real.cos θ,
          Real.sin ψ * Real.sin φ * Real.cos θ - Real.cos ψ * Real.sin θ],
        ![-Real.sin φ, Real.cos φ * Real.sin θ, Real.cos φ * Real.cos θ]] := by
  ext i j
  fin_cases i <;> fin_cases j <;>
    simp [rotation_tensor, rot_x, rot_y, rot_z, Matrix.mul_apply, Matrix.transpose, Matrix.vecHead, Matrix.vecTail,
      Fin.sum_univ_three] <;> ring

/-- `rot_x` is orthogonal. -/
lemma rot_x_orth (θ : ℝ) : (rot_x θ).transpose * rot_x θ = 1 := by
  ext i j
  fin_cases i <;> fin_cases j <;>
    simp [rot_x, Matrix.mul_apply, Matrix.transpose, Matrix.vecHead, Matrix.vecTail,
      Fin.sum_univ_three, Matrix.one_apply]
  all_goals linarith [Real.sin_sq_add_cos_sq θ]

/-- `rot_y` is orthogonal. -/
lemma rot_y_orth (φ : ℝ) : (rot_y φ).transpose * rot_y φ = 1 := by
  ext i j
  fin_cases i <;> fin_cases j <;>
    simp [rot_y, Matrix.mul_apply, Matrix.transpose, Matrix.vecHead, Matrix.vecTail,
      Fin.sum_univ_three, Matrix.one_apply]
  all_goals linarith [Real.sin_sq_add_cos_sq φ]

/-- `rot_z` is orthogonal. -/
lemma rot_z_orth (ψ : ℝ) : (rot_z ψ).transpose * rot_z ψ = 1 := by
  ext i j
  fin_cases i <;> fin_cases j <;>
    simp [rot_z, Matrix.mul_apply, Matrix.transpose, Matrix.vecHead, Matrix.vecTail,
      Fin.sum_univ_three, Matrix.one_apply]
  all_goals linarith [Real.sin_sq_add_cos_sq ψ]

/-- The full rotation tensor is orthogonal. -/
lemma rotation_tensor_orth (θ φ ψ : ℝ) :
    (rotation_tensor θ φ ψ).transpose * rotation_tensor θ φ ψ = 1 := by
  unfold rotation_tensor
  calc (rot_z ψ * (rot_y φ * rot_x θ)).transpose * (rot_z ψ * (rot_y φ * rot_x θ))
      = (rot_y φ * rot_x θ).transpose * (((rot_z ψ).transpose * rot_z ψ) * (rot_y φ * rot_x θ)) := by
        rw [Matrix.transpose_mul, Matrix.mul_assoc, Matrix.mul_assoc]
    _ = (rot_y φ * rot_x θ).transpose * (rot_y φ * rot_x θ) := by
        rw [rot_z_orth, Matrix.one_mul]
    _ = (rot_x θ).transpose * (((rot_y φ).transpose * rot_y φ) * rot_x θ) := by
        rw [Matrix.transpose_mul, Matrix.mul_assoc, Matrix.mul_assoc]
    _ = (rot_x θ).transpose * rot_x θ := by rw [rot_y_orth, Matrix.one_mul]
    _ = 1 := rot_x_orth θ

/-- Columns of the rotation tensor are orthonormal (entrywise form). -/
lemma rotation_col_orth (θ φ ψ : ℝ) (i j : Fin 3) :
    rotation_tensor θ φ ψ 0 i * rotation_tensor θ φ ψ 0 j +
      rotation_tensor θ φ ψ 1 i * rotation_tensor θ φ ψ 1 j +
      rotation_tensor θ φ ψ 2 i * rotation_tensor θ φ ψ 2 j =
      if i = j then 1 else 0 := by
  have h := congrFun (congrFun (rotation_tensor_orth θ φ ψ) i) j
  simpa [Matrix.mul_apply, Fin.sum_univ_three, Matrix.one_apply] using h

/-! ## atan2 and identity-pose evaluations -/

/-- `atan2 0 1 = 0`. -/
lemma atan2_zero_one : atan2 0 1 = 0 := by
  unfold atan2
  have h : (Complex.mk 1 0 : ℂ) = 1 := by
    rw [Complex.mk_eq_add_mul_I]
    simp
  rw [h, Complex.arg_one]

/-- `atan2` recovers an angle in `(-π, π]` from a positively scaled
sine/cosine pair. -/
lemma atan2_mul_sin_cos {c α : ℝ} (hc : 0 < c)
    (hα : α ∈ Set.Ioc (-Real.pi) Real.pi) :
    atan2 (c * Real.sin α) (c * Real.cos α) = α := by
  unfold atan2
  have h : (Complex.mk (c * Real.cos α) (c * Real.sin α) : ℂ) =
      (c : ℂ) * (Complex.cos α + Complex.sin α * Complex.I) := by
    rw [Complex.mk_eq_add_mul_I]
    push_cast [Complex.ofReal_cos, Complex.ofReal_sin]
    ring
  rw [h, Complex.arg_real_mul _ hc, Complex.arg_cos_add_sin_mul_I hα]

/-- The rotation tensor at zero angles is the identity. -/
lemma rotation_tensor_zero : rotation_tensor 0 0 0 = 1 := by
  rw [rotation_tensor_entries]
  ext i j
  fin_cases i <;> fin_cases j <;>
    simp [Matrix.one_apply, Matrix.vecHead, Matrix.vecTail]

/-- The homogeneous transform of the zero pose is the identity matrix. -/
lemma pose_to_tf_matrix_spZero : pose_to_tf_matrix spZero = 1 := by
  unfold pose_to_tf_matrix spZero
  rw [rotation_tensor_zero]
  ext i j
  fin_cases i <;> fin_cases j <;>
    simp [Matrix.one_apply, Matrix.vecHead, Matrix.vecTail]

/-- `invert_tf` of the identity is the identity. -/
lemma invert_tf_one : invert_tf 1 = 1 := by
  unfold invert_tf
  ext i j
  fin_cases i <;> fin_cases j <;>
    simp [Matrix.one_apply, Matrix.vecHead, Matrix.vecTail]

/-- The homogeneous transform of a pure `x`-translation, explicitly. -/
lemma pose_to_tf_matrix_spUnitX :
    pose_to_tf_matrix spUnitX = Matrix.of
      ![![1, 0, 0, 1], ![0, 1, 0, 0], ![0, 0, 1, 0], ![0, 0, 0, 1]] := by
  unfold pose_to_tf_matrix spUnitX
  rw [rotation_tensor_zero]
  ext i j
  fin_cases i <;> fin_cases j <;>
    simp [Matrix.one_apply, Matrix.vecHead, Matrix.vecTail]

/-- Recovering the pose of a pure `x`-translation round-trips. -/
lemma tf_matrix_to_pose_pose_to_tf_matrix_spUnitX :
    tf_matrix_to_pose (pose_to_tf_matrix spUnitX) = spUnitX := by
  rw [pose_to_tf_matrix_spUnitX]
  unfold tf_matrix_to_pose
  norm_num [Matrix.vecHead, Matrix.vecTail, Real.sqrt_one, atan2_zero_one]
  ext <;> simp [spUnitX]

/-- C3: the dish-bin rule's offset recovery is not the inverse of its forward
chaining: it inverts only the rule's own pose and drops the parent transform
(the computed `my_pose_in_world_tf` is never used).  With the rule pose at
the origin, a parent at a unit `x`-translation and a zero relative offset,
the forward-chained absolute pose is the parent translation, and recovery
returns that translation instead of the original zero offset. -/
theorem dish_bin_recover_not_inverse_of_forward :
    DishBinObjectRule.recover_rel_offset_from_abs_offset spZero spUnitX
      (DishBinObjectRule.sample_products_pose spZero spUnitX spZero) ≠ spZero := by
  have hsample : DishBinObjectRule.sample_products_pose spZero spUnitX spZero
      = spUnitX := by
    unfold DishBinObjectRule.sample_products_pose
    dsimp only
    rw [pose_to_tf_matrix_spZero, Matrix.mul_one, Matrix.mul_one]
    exact tf_matrix_to_pose_pose_to_tf_matrix_spUnitX
  rw [hsample]
  unfold DishBinObjectRule.recover_rel_offset_from_abs_offset
  dsimp only
  rw [pose_to_tf_matrix_spZero, invert_tf_one, Matrix.one_mul,
    tf_matrix_to_pose_pose_to_tf_matrix_spUnitX]
  intro h
  have hx := congrArg SpatialPose.x h
  simp [spUnitX, spZero] at hx

/-- Generic form: `invert_tf` of a homogeneous transform whose rotation
block has orthonormal columns, multiplied against the transform itself, is
the identity. -/
lemma invert_tf_mul_self_gen (r00 r01 r02 r10 r11 r12 r20 r21 r22 x y z : ℝ)
    (h00 : r00 * r00 + r10 * r10 + r20 * r20 = 1)
    (h01 : r00 * r01 + r10 * r11 + r20 * r21 = 0)
    (h02 : r00 * r02 + r10 * r12 + r20 * r22 = 0)
    (h11 : r01 * r01 + r11 * r11 + r21 * r21 = 1)
    (h12 : r01 * r02 + r11 * r12 + r21 * r22 = 0)
    (h22 : r02 * r02 + r12 * r12 + r22 * r22 = 1) :
    invert_tf (Matrix.of
        ![![r00, r01, r02, x], ![r10, r11, r12, y],
          ![r20, r21, r22, z], ![0, 0, 0, 1]]) *
      Matrix.of
        ![![r00, r01, r02, x], ![r10, r11, r12, y],
          ![r20, r21, r22, z], ![0, 0, 0, 1]] = 1 := by
  unfold invert_tf
  ext i j
  fin_cases i <;> fin_cases j <;>
    simp [Matrix.mul_apply, Fin.sum_univ_four, Matrix.one_apply,
      Matrix.vecHead, Matrix.vecTail]
  all_goals first
    | ring1
    | linear_combination h00
    | linear_combination h01
    | linear_combination h02
    | linear_combination h11
    | linear_combination h12
    | linear_combination h22

/-- `invert_tf` composed against the original homogeneous transform yields
the identity (the rotation block is orthogonal and the translation cancels). -/
lemma invert_tf_mul_self (p : SpatialPose) :
    invert_tf (pose_to_tf_matrix p) * pose_to_tf_matrix p = 1 := by
  unfold pose_to_tf_matrix
  dsimp only
  exact invert_tf_mul_self_gen _ _ _ _ _ _ _ _ _ _ _ _
    (by simpa using rotation_col_orth p.roll p.pitch p.yaw 0 0)
    (by simpa using rotation_col_orth p.roll p.pitch p.yaw 0 1)
    (by simpa using rotation_col_orth p.roll p.pitch p.yaw 0 2)
    (by simpa using rotation_col_orth p.roll p.pitch p.yaw 1 1)
    (by simpa using rotation_col_orth p.roll p.pitch p.yaw 1 2)
    (by simpa using rotation_col_orth p.roll p.pitch p.yaw 2 2)

/-- Closed-form entries of `pose_to_tf_matrix`. -/
lemma pose_to_tf_matrix_entries (q : SpatialPose) :
    pose_to_tf_matrix q = Matrix.of
      ![![Real.cos q.yaw * Real.cos q.pitch,
          Real.cos q.yaw * Real.sin q.pitch * Real.sin q.roll -
            Real.sin q.yaw * Real.cos q.roll,
          Real.cos q.yaw * Real.sin q.pitch * Real.cos q.roll +
            Real.sin q.yaw * Real.sin q.roll, q.x],
        ![Real.sin q.yaw * Real.cos q.pitch,
          Real.sin q.yaw * Real.sin q.pitch * Real.sin q.roll +
            Real.cos q.yaw * Real.cos q.roll,
          Real.sin q.yaw * Real.sin q.pitch * Real.cos q.roll -
            Real.cos q.yaw * Real.sin q.roll, q.y],
        ![-Real.sin q.pitch, Real.cos q.pitch * Real.sin q.roll,
          Real.cos q.pitch * Real.cos q.roll, q.z],
        ![0, 0, 0, 1]] := by
  unfold pose_to_tf_matrix
  dsimp only
  rw [rotation_tensor_entries]
  ext i j
  fin_cases i <;> fin_cases j <;> simp [Matrix.vecHead, Matrix.vecTail]

/-- Round trip: a spatial pose with normalised angles away from the
gimbal-lock threshold is recovered exactly from its homogeneous transform. -/
lemma tf_matrix_to_pose_round_trip (q : SpatialPose)
    (hr : q.roll ∈ Set.Ioc (-Real.pi) Real.pi)
    (hp : q.pitch ∈ Set.Ioc (-Real.pi) Real.pi)
    (hy : q.yaw ∈ Set.Ioc (-Real.pi) Real.pi)
    (hc : Real.cos q.pitch ≥ 1e-6) :
    tf_matrix_to_pose (pose_to_tf_matrix q) = q := by
  have hcpos : (0 : ℝ) < Real.cos q.pitch := lt_of_lt_of_le (by norm_num) hc
  rw [pose_to_tf_matrix_entries]
  unfold tf_matrix_to_pose
  simp only [Matrix.of_apply, Matrix.cons_val', Matrix.cons_val_zero,
    Matrix.cons_val_one, Matrix.head_cons, Matrix.empty_val',
    Matrix.cons_val_fin_one, Matrix.vecHead, Matrix.vecTail,
    Function.comp_apply, Fin.succ_zero_eq_one, Fin.succ_one_eq_two,
    Matrix.cons_val_two, Matrix.tail_cons, Matrix.cons_val_three]
  have hsq : Real.cos q.yaw * Real.cos q.pitch * (Real.cos q.yaw * Real.cos q.pitch) +
      Real.sin q.yaw * Real.cos q.pitch * (Real.sin q.yaw * Real.cos q.pitch) =
      Real.cos q.pitch ^ 2 := by
    have h := Real.sin_sq_add_cos_sq q.yaw
    nlinarith [h]
  rw [hsq, Real.sqrt_sq hcpos.le, if_pos hc]
  ext
  · rfl
  · rfl
  · rfl
  · exact atan2_mul_sin_cos hcpos hr
  · rw [neg_neg, ← one_mul (Real.sin q.pitch), ← one_mul (Real.cos q.pitch)]
    exact atan2_mul_sin_cos one_pos hp
  · rw [mul_comm (Real.sin q.yaw) (Real.cos q.pitch),
      mul_comm (Real.cos q.yaw) (Real.cos q.pitch)]
    exact atan2_mul_sin_cos hcpos hy

/-- C5 amended: the planar chain-inverse law holds exactly for all poses;
the spatial law (matrix chaining through `pose_to_tf_matrix`, `invert_tf`
and final recovery by `tf_matrix_to_pose`) holds for every parent pose `p`
and every pose `q` whose angles are normalised to `(-π, π]` with
`cos(pitch)` at or above the `1e-6` singularity threshold — but not at the
gimbal-lock branch (see the counterexample). -/
theorem pose_chain_inverse_law_amended :
    (∀ p q : PlanarPose,
      chain_pose_transforms (invert_pose p) (chain_pose_transforms p q) = q) ∧
    (∀ p q : SpatialPose,
      q.roll ∈ Set.Ioc (-Real.pi) Real.pi →
      q.pitch ∈ Set.Ioc (-Real.pi) Real.pi →
      q.yaw ∈ Set.Ioc (-Real.pi) Real.pi →
      Real.cos q.pitch ≥ 1e-6 →
      tf_matrix_to_pose (invert_tf (pose_to_tf_matrix p) *
        (pose_to_tf_matrix p * pose_to_tf_matrix q)) = q) := by
  constructor
  · intro p q
    ext
    · simp only [chain_pose_transforms, invert_pose, Real.cos_neg, Real.sin_neg]
      linear_combination q.x * Real.sin_sq_add_cos_sq p.θ
    · simp only [chain_pose_transforms, invert_pose, Real.cos_neg, Real.sin_neg]
      linear_combination q.y * Real.sin_sq_add_cos_sq p.θ
    · simp only [chain_pose_transforms, invert_pose]
      ring1
  · intro p q hr hp hy hc
    rw [← Matrix.mul_assoc, invert_tf_mul_self, Matrix.one_mul]
    exact tf_matrix_to_pose_round_trip q hr hp hy hc

/-- C5 counterexample: at the gimbal-lock singularity the recovered pose is
not the original, even through an identity parent: chaining the identity
pose with `spGimbal` (pitch `π/2`, yaw `1`) and converting back yields a
pose whose yaw is `0`, not `1`. -/
theorem pose_chain_inverse_law_gimbal_counterexample :
    tf_matrix_to_pose (invert_tf (pose_to_tf_matrix spZero) *
      (pose_to_tf_matrix spZero * pose_to_tf_matrix spGimbal)) ≠ spGimbal := by
  rw [pose_to_tf_matrix_spZero, invert_tf_one, Matrix.one_mul, Matrix.one_mul]
  intro h
  have hyaw := congrArg SpatialPose.yaw h
  rw [pose_to_tf_matrix_entries] at hyaw
  unfold tf_matrix_to_pose at hyaw
  simp only [Matrix.of_apply, Matrix.cons_val', Matrix.cons_val_zero,
    Matrix.cons_val_one, Matrix.head_cons, Matrix.empty_val',
    Matrix.cons_val_fin_one, Matrix.vecHead, Matrix.vecTail,
    Function.comp_apply, Fin.succ_zero_eq_one, Fin.succ_one_eq_two,
    Matrix.cons_val_two, Matrix.tail_cons, Matrix.cons_val_three] at hyaw
  norm_num [spGimbal, Real.cos_pi_div_two, Real.sqrt_zero,
    apply_ite SpatialPose.yaw] at hyaw

/-- Witness for C5 at concrete inputs: a planar instance and a spatial
instance with a translated parent pose. -/
theorem pose_chain_inverse_law_amended_witness :
    chain_pose_transforms (invert_pose ⟨1, 2, 0⟩)
        (chain_pose_transforms ⟨1, 2, 0⟩ ⟨3, 4, 0⟩) = ⟨3, 4, 0⟩ ∧
    (spZero.roll ∈ Set.Ioc (-Real.pi) Real.pi ∧
     spZero.pitch ∈ Set.Ioc (-Real.pi) Real.pi ∧
     spZero.yaw ∈ Set.Ioc (-Real.pi) Real.pi ∧
     Real.cos spZero.pitch ≥ 1e-6) ∧
    tf_matrix_to_pose (invert_tf (pose_to_tf_matrix spUnitX) *
      (pose_to_tf_matrix spUnitX * pose_to_tf_matrix spZero)) = spZero := by
  have hmem : (0 : ℝ) ∈ Set.Ioc (-Real.pi) Real.pi :=
    ⟨neg_lt_zero.mpr Real.pi_pos, Real.pi_nonneg⟩
  have hcos : Real.cos (0 : ℝ) ≥ 1e-6 := by norm_num
  exact ⟨pose_chain_inverse_law_amended.1 ⟨1, 2, 0⟩ ⟨3, 4, 0⟩,
    ⟨hmem, hmem, hmem, hcos⟩,
    pose_chain_inverse_law_amended.2 spUnitX spZero hmem hmem hmem hcos⟩
